import Mathlib

/-!
Verification of the Bayesian-optimisation-over-molecules notebook
(`notebooks/Bayesian Optimisation Over Molecules.ipynb`).

The notebook's core is a discrete Bayesian-optimisation loop: a GP
surrogate (fit and acquisition evaluation are external library calls,
modelled here as abstract function parameters `fitF` and `mkAcq`),
exhaustive acquisition maximisation over a shrinking heldout pool,
a parallel random baseline, a per-trial best-so-far trace, and a
multi-trial harness with a confidence-interval helper.

Tensors of labels are modelled as `List ℚ`; tensors of feature rows as
`List α` for an arbitrary row type `α`.  Python/library failures
(exceptions raised by `torch.argmax` on an empty tensor, out-of-range
indexing, `np.max`/`tensor.max()` on an empty array) are modelled by
`Except PyError`.
-/

namespace GProTorchBO

/-- Failure modes of the notebook's loop.  The notebook itself contains no
`raise` statement and defines no error class; every failure comes from a
library call.  `emptyPoolError` is the dedicated error class named by the
spec's error taxonomy; it is listed here only so that statements can express
that the code never produces it. -/
inductive PyError where
  /-- The spec's named error class for selection on an empty pool.
  No code in the notebook defines or raises it. -/
  | emptyPoolError
  /-- `torch.argmax` applied to an empty tensor (empty acquisition-value list). -/
  | argmaxEmpty
  /-- Out-of-range tensor/list indexing, e.g. `torch.randperm(0)[0]` or
  `best_random[-1]` on an empty list. -/
  | indexError
  /-- `np.max` / `tensor.max()` applied to an empty array. -/
  | maxEmpty
deriving DecidableEq, Repr

/-- `torch.cat((t[:i], t[i+1:]), axis=0)`: drop the element at index `i`. -/
def sliceRemove {α : Type} (l : List α) (i : ℕ) : List α :=
  l.take i ++ l.drop (i + 1)

/-- `torch.argmax` on a one-dimensional tensor: the index of the first
maximal element (torch documents that the index of the first maximal value
is returned), `none` on the empty tensor (where torch raises). -/
def argmaxIdx (l : List ℚ) : Option ℕ :=
  match l.max? with
  | none => none
  | some m => some (l.findIdx (fun v => v == m))

/-- The list of acquisition values built by the scoring loop of
`optimize_acqf_and_get_observation`: `acq_func(heldout_inputs[i])` for
`i in range(len(heldout_outputs))`. -/
def acq_vals_of {α : Type} (acq_func : α → ℚ) (heldout_inputs : List α)
    (heldout_outputs : List ℚ) : List ℚ :=
  (heldout_inputs.take heldout_outputs.length).map acq_func

/-- `optimize_acqf_and_get_observation(acq_func, heldout_inputs,
heldout_outputs)` from the notebook: score every heldout point with the
acquisition function, take `torch.argmax`, return the chosen point and its
label, and delete the chosen index from both heldout tensors.
The scoring loop runs over `range(len(heldout_outputs))` and indexes
`heldout_inputs[i]`, so it raises if the input tensor is shorter; and
`torch.argmax` raises on an empty value list. -/
def optimize_acqf_and_get_observation {α : Type} (acq_func : α → ℚ)
    (heldout_inputs : List α) (heldout_outputs : List ℚ) :
    Except PyError (α × ℚ × List α × List ℚ) :=
  if heldout_inputs.length < heldout_outputs.length then
    .error .indexError
  else
    match argmaxIdx (acq_vals_of acq_func heldout_inputs heldout_outputs) with
    | none => .error .argmaxEmpty
    | some best_idx =>
      match heldout_inputs[best_idx]?, heldout_outputs[best_idx]? with
      | some new_x, some new_obj =>
        .ok (new_x, new_obj,
             sliceRemove heldout_inputs best_idx,
             sliceRemove heldout_outputs best_idx)
      | _, _ => .error .indexError

/-- `update_random_observations(best_random, heldout_inputs,
heldout_outputs)` from the notebook.  The random draw
`torch.randperm(len(heldout_outputs))[0]` is modelled by the explicit
parameter `index` (the library guarantees `index < len(heldout_outputs)`
whenever the pool is non-empty, and raises `IndexError` on an empty pool).
The chosen label is read, `max(best_random[-1], next_random_best)` is
appended to the trace, and the chosen index is deleted from both heldout
tensors. -/
def update_random_observations {α : Type} (index : ℕ) (best_random : List ℚ)
    (heldout_inputs : List α) (heldout_outputs : List ℚ) :
    Except PyError (List ℚ × List α × List ℚ) :=
  if heldout_outputs.length = 0 then
    .error .indexError
  else
    match heldout_outputs[index]? with
    | none => .error .indexError
    | some next_random_best =>
      match best_random.getLast? with
      | none => .error .indexError
      | some prev =>
        .ok (best_random ++ [max prev next_random_best],
             sliceRemove heldout_inputs index,
             sliceRemove heldout_outputs index)

/-- The per-trial mutable variables of the notebook's trial loop.
`α` is the feature-row type, `S` the surrogate model's state-dict type
(hyperparameters of `TanimotoGP`; their numeric content is external to the
loop's bookkeeping and is kept abstract). -/
structure TrialState (α S : Type) where
  train_x_ei : List α
  train_y_ei : List ℚ
  heldout_x_ei : List α
  heldout_y_ei : List ℚ
  heldout_x_random : List α
  heldout_y_random : List ℚ
  best_observed_ei : List ℚ
  best_random : List ℚ
  model_state : S
deriving DecidableEq

/-- `initialize_model(train_x, train_obj, state_dict=None)` from the
notebook, restricted to the model's parameter state: a fresh `TanimotoGP`
starts from the library's default hyperparameters (`defaultState`), and
`model.load_state_dict(state_dict)` overwrites them when a state dict is
passed.  The training tensors the model wraps are tracked separately in
`TrialState`. -/
def init_model {S : Type} (defaultState : S) (state_dict : Option S) : S :=
  match state_dict with
  | some sd => sd
  | none => defaultState

/-- `best_f=(train_y_ei.to(train_y_ei)).max()`: the maximum label of the
current GP train set, passed to `ExpectedImprovement`; `tensor.max()`
raises on an empty tensor. -/
def best_f_of (train_y : List ℚ) : Option ℚ :=
  train_y.max?

/-- The per-trial initialisation of the notebook's trial loop:
`train_test_split` output is received as the four lists, the initial best
observed value is `np.max(train_y_ei)` (raises on an empty train set), the
random policy starts from the same heldout pool, both traces start with the
initial best, and the model is initialised without a state dict. -/
def initTrial {α S : Type} (defaultState : S)
    (train_x heldout_x : List α) (train_y heldout_y : List ℚ) :
    Except PyError (TrialState α S) :=
  match train_y.max? with
  | none => .error .maxEmpty
  | some best_observed_value_ei =>
    .ok { train_x_ei := train_x
          train_y_ei := train_y
          heldout_x_ei := heldout_x
          heldout_y_ei := heldout_y
          heldout_x_random := heldout_x
          heldout_y_random := heldout_y
          best_observed_ei := [best_observed_value_ei]
          best_random := [best_observed_value_ei]
          model_state := init_model defaultState none }

/-- One iteration of the notebook's inner loop (`for iteration in
range(1, N_ITERS + 1)`).  `fitF train_x train_y s` models
`fit_gpytorch_model(mll_ei)`: hyperparameter optimisation on the current
train set starting from the model's current state `s`.  `mkAcq s best_f`
models `ExpectedImprovement(model, best_f)` as a scoring function on
feature rows.  `rand_index` is the random draw used by
`update_random_observations`.  At the end the model is re-initialised from
the fitted state dict (`initialize_model(..., model_ei.state_dict())`). -/
def bo_iteration {α S : Type} (defaultState : S)
    (fitF : List α → List ℚ → S → S) (mkAcq : S → ℚ → α → ℚ)
    (rand_index : ℕ) (st : TrialState α S) :
    Except PyError (TrialState α S) :=
  let fitted := fitF st.train_x_ei st.train_y_ei st.model_state
  match best_f_of st.train_y_ei with
  | none => .error .maxEmpty
  | some best_f =>
    match optimize_acqf_and_get_observation (mkAcq fitted best_f)
        st.heldout_x_ei st.heldout_y_ei with
    | .error e => .error e
    | .ok (new_x_ei, new_obj_ei, hx, hy) =>
      match update_random_observations rand_index st.best_random
          st.heldout_x_random st.heldout_y_random with
      | .error e => .error e
      | .ok (br, hxr, hyr) =>
        match st.best_observed_ei.getLast? with
        | none => .error .indexError
        | some prev =>
          .ok { train_x_ei := st.train_x_ei ++ [new_x_ei]
                train_y_ei := st.train_y_ei ++ [new_obj_ei]
                heldout_x_ei := hx
                heldout_y_ei := hy
                heldout_x_random := hxr
                heldout_y_random := hyr
                best_observed_ei := st.best_observed_ei ++ [max new_obj_ei prev]
                best_random := br
                model_state := init_model defaultState (some fitted) }

/-- `k` iterations of the inner loop.  `ridx n` is the random index drawn
by the random policy at iteration `n` (counting from 0). -/
def runIters {α S : Type} (defaultState : S)
    (fitF : List α → List ℚ → S → S) (mkAcq : S → ℚ → α → ℚ)
    (ridx : ℕ → ℕ) : ℕ → TrialState α S → Except PyError (TrialState α S)
  | 0, st => .ok st
  | k + 1, st =>
    match runIters defaultState fitF mkAcq ridx k st with
    | .ok st' => bo_iteration defaultState fitF mkAcq (ridx k) st'
    | .error e => .error e

/-- Number of random trials (`N_TRIALS = 20`). -/
def N_TRIALS : ℕ := 20

/-- Number of Bayesian-optimisation iterations per trial (`N_ITERS = 20`). -/
def N_ITERS : ℕ := 20

/-- The experiment-level variables of the notebook: the dataset
(`X = loader.features`, `y = loader.labels`) and the accumulated per-trial
traces (`best_observed_all_ei`, `best_random_all`). -/
structure ExperimentState (S : Type) where
  X : List (List ℚ)
  y : List ℚ
  best_observed_all_ei : List (List ℚ)
  best_random_all : List (List ℚ)
deriving DecidableEq

/-- One full trial of the notebook's outer loop (`for trial in
range(1, N_TRIALS + 1)`): split the dataset (`train_test_split(X, y,
test_size=holdout_set_size, random_state=trial)` is the external
`split_fn trial`), run the per-trial initialisation and `N_ITERS`
iterations, and append the completed traces to the experiment
accumulators.  `ridx trial` supplies the trial's random draws. -/
def runTrial {S : Type} (defaultState : S)
    (fitF : List (List ℚ) → List ℚ → S → S) (mkAcq : S → ℚ → List ℚ → ℚ)
    (ridx : ℕ → ℕ → ℕ)
    (split_fn : ℕ → List (List ℚ) → List ℚ →
      List (List ℚ) × List (List ℚ) × List ℚ × List ℚ)
    (trial : ℕ) (es : ExperimentState S) :
    Except PyError (ExperimentState S) :=
  match split_fn trial es.X es.y with
  | (train_x_ei, heldout_x_ei, train_y_ei, heldout_y_ei) =>
    match initTrial defaultState train_x_ei heldout_x_ei train_y_ei heldout_y_ei with
    | .error e => .error e
    | .ok st0 =>
      match runIters defaultState fitF mkAcq (ridx trial) N_ITERS st0 with
      | .error e => .error e
      | .ok st =>
        .ok { es with
              best_observed_all_ei := es.best_observed_all_ei ++ [st.best_observed_ei]
              best_random_all := es.best_random_all ++ [st.best_random] }

/-- The first `t` trials of the outer loop (trials are numbered from 1, as
in the notebook's `range(1, N_TRIALS + 1)`). -/
def runTrials {S : Type} (defaultState : S)
    (fitF : List (List ℚ) → List ℚ → S → S) (mkAcq : S → ℚ → List ℚ → ℚ)
    (ridx : ℕ → ℕ → ℕ)
    (split_fn : ℕ → List (List ℚ) → List ℚ →
      List (List ℚ) × List (List ℚ) × List ℚ × List ℚ) :
    ℕ → ExperimentState S → Except PyError (ExperimentState S)
  | 0, es => .ok es
  | t + 1, es =>
    match runTrials defaultState fitF mkAcq ridx split_fn t es with
    | .ok es' => runTrial defaultState fitF mkAcq ridx split_fn (t + 1) es'
    | .error e => .error e

/-- The whole experiment: load-time dataset `X`, `y`, empty trace
accumulators, `N_TRIALS` trials. -/
def runExperiment {S : Type} (defaultState : S)
    (fitF : List (List ℚ) → List ℚ → S → S) (mkAcq : S → ℚ → List ℚ → ℚ)
    (ridx : ℕ → ℕ → ℕ)
    (split_fn : ℕ → List (List ℚ) → List ℚ →
      List (List ℚ) × List (List ℚ) × List ℚ × List ℚ)
    (X : List (List ℚ)) (y : List ℚ) : Except PyError (ExperimentState S) :=
  runTrials defaultState fitF mkAcq ridx split_fn N_TRIALS
    { X := X, y := y, best_observed_all_ei := [], best_random_all := [] }

/-- Column `j` of the trace matrix `np.asarray(best_observed_all_ei)`:
the across-trial vector at iteration index `j` (numpy `axis=0`). -/
def column (rows : List (List ℚ)) (j : ℕ) : List ℚ :=
  rows.map (fun r => r.getD j 0)

/-- `numpy` mean of a vector. -/
noncomputable def npMean (v : List ℝ) : ℝ :=
  v.sum / v.length

/-- `numpy` standard deviation of a vector (population convention,
`ddof = 0`, numpy's default). -/
noncomputable def npStd (v : List ℝ) : ℝ :=
  Real.sqrt ((v.map (fun x => (x - npMean v) ^ 2)).sum / v.length)

/-- The notebook's confidence-interval helper
`ci(y) = 1.96 * y.std(axis=0) / np.sqrt(N_TRIALS)`, at iteration index
`j` of the trace matrix. -/
noncomputable def ci (rows : List (List ℚ)) (j : ℕ) : ℝ :=
  1.96 * npStd ((column rows j).map (fun q => (q : ℝ))) / Real.sqrt N_TRIALS

/-! ### Basic lemmas about the list operations used by the loop -/

lemma sliceRemove_eq_eraseIdx {α : Type} (l : List α) (i : ℕ) :
    sliceRemove l i = l.eraseIdx i :=
  (List.eraseIdx_eq_take_drop_succ l i).symm

lemma max?_spec {l : List ℚ} {m : ℚ} (h : l.max? = some m) :
    m ∈ l ∧ ∀ x ∈ l, x ≤ m := by
  haveI : Std.Antisymm (fun a b : ℚ => a ≤ b) := ⟨@le_antisymm ℚ _⟩
  exact (List.max?_eq_some_iff (fun a : ℚ => le_refl a) (fun a b => max_choice a b)
    (fun a b c => max_le_iff)).mp h

lemma max?_concat (l : List ℚ) (v : ℚ) :
    (l ++ [v]).max? = some (l.max?.elim v (fun m => max m v)) := by
  cases l with
  | nil => simp [List.max?]
  | cons x xs => simp [List.max?, List.foldl_append]

lemma argmaxIdx_eq_some {l : List ℚ} {i : ℕ} (h : argmaxIdx l = some i) :
    ∃ m, l.max? = some m ∧ i < l.length ∧ l[i]? = some m ∧
      (∀ (j : ℕ) (v : ℚ), l[j]? = some v → v ≤ m) ∧
      (∀ (j : ℕ) (v : ℚ), j < i → l[j]? = some v → v < m) := by
  unfold argmaxIdx at h
  cases hm : l.max? with
  | none => rw [hm] at h; simp at h
  | some m =>
    rw [hm] at h
    simp only [Option.some.injEq] at h
    subst h
    obtain ⟨hmem, hub⟩ := max?_spec hm
    have hex : ∃ x ∈ l, (x == m) = true := ⟨m, hmem, beq_self_eq_true m⟩
    have hilt : l.findIdx (fun v => v == m) < l.length :=
      List.findIdx_lt_length_of_exists hex
    refine ⟨m, rfl, hilt, ?_, ?_, ?_⟩
    · have hbeq : (l[l.findIdx (fun v => v == m)] == m) = true :=
        List.findIdx_getElem (w := hilt)
      rw [List.getElem?_eq_getElem hilt, eq_of_beq hbeq]
    · intro j v hj
      exact hub v (List.getElem?_mem hj)
    · intro j v hji hj
      obtain ⟨hjl, hjv⟩ := List.getElem?_eq_some_iff.mp hj
      have hne : (l[j] == m) = false := List.not_of_lt_findIdx hji
      rw [hjv] at hne
      exact lt_of_le_of_ne (hub v (List.getElem?_mem hj))
        (by simpa using hne)

lemma argmaxIdx_of_ne_nil {l : List ℚ} (h : l ≠ []) :
    ∃ i, argmaxIdx l = some i := by
  unfold argmaxIdx
  cases hm : l.max? with
  | none => exact absurd (List.max?_eq_none_iff.mp hm) h
  | some m => exact ⟨_, rfl⟩

lemma cons_eraseIdx_perm {α : Type} {l : List α} {i : ℕ} {x : α}
    (h : l[i]? = some x) : (x :: l.eraseIdx i).Perm l := by
  obtain ⟨hi, hx⟩ := List.getElem?_eq_some_iff.mp h
  have hsplit : l = l.take i ++ l[i] :: l.drop (i + 1) := by
    conv_lhs => rw [← List.take_append_drop i l]
    rw [List.drop_eq_getElem_cons hi]
  rw [List.eraseIdx_eq_take_drop_succ, ← hx]
  conv_rhs => rw [hsplit]
  exact List.perm_middle.symm

lemma not_mem_eraseIdx_of_nodup {α : Type} {l : List α} {i : ℕ} {x : α}
    (hnd : l.Nodup) (h : l[i]? = some x) : x ∉ l.eraseIdx i := by
  have hperm := (cons_eraseIdx_perm h).symm
  have : (x :: l.eraseIdx i).Nodup := hperm.nodup hnd
  exact (List.nodup_cons.mp this).1

lemma zip_eraseIdx {α β : Type} :
    ∀ (xs : List α) (ys : List β) (i : ℕ),
      (xs.eraseIdx i).zip (ys.eraseIdx i) = (xs.zip ys).eraseIdx i
  | [], _, _ => by simp [List.eraseIdx]
  | _ :: _, [], _ => by simp [List.zip, List.eraseIdx]
  | x :: xs, y :: ys, 0 => by simp [List.eraseIdx, List.zip]
  | x :: xs, y :: ys, i + 1 => by
      simp only [List.eraseIdx, List.zip_cons_cons]
      simpa [List.zip] using zip_eraseIdx xs ys i

lemma chain'_le_concat {l : List ℚ} {prev v : ℚ} (hc : l.Chain' (· ≤ ·))
    (hl : l.getLast? = some prev) (hle : prev ≤ v) :
    (l ++ [v]).Chain' (· ≤ ·) := by
  rw [List.chain'_append]
  refine ⟨hc, List.chain'_singleton v, ?_⟩
  intro x hx y hy
  simp only [List.head?_cons, Option.mem_def, Option.some.injEq] at hy
  rw [hl] at hx
  simp only [Option.mem_def, Option.some.injEq] at hx
  subst hx; subst hy
  exact hle

lemma head?_concat_of_getLast? {α : Type} {l : List α} {a p : α}
    (h : l.getLast? = some p) : (l ++ [a]).head? = l.head? := by
  cases l with
  | nil => simp at h
  | cons x xs => simp

/-! ### Anatomy of a successful selection / iteration -/

lemma optimize_ok {α : Type} {acq : α → ℚ} {hx : List α} {hy : List ℚ}
    {x : α} {v : ℚ} {hx' : List α} {hy' : List ℚ}
    (h : optimize_acqf_and_get_observation acq hx hy = .ok (x, v, hx', hy')) :
    ∃ i, hy.length ≤ hx.length ∧ i < hy.length ∧ i < hx.length ∧
      hx[i]? = some x ∧ hy[i]? = some v ∧
      hx' = hx.eraseIdx i ∧ hy' = hy.eraseIdx i ∧
      argmaxIdx (acq_vals_of acq hx hy) = some i := by
  unfold optimize_acqf_and_get_observation at h
  split at h
  · simp at h
  next hge =>
    push_neg at hge
    cases hm : argmaxIdx (acq_vals_of acq hx hy) with
    | none => rw [hm] at h; simp at h
    | some i =>
      rw [hm] at h
      dsimp only at h
      have hlen : i < hy.length ∧ i < hx.length := by
        obtain ⟨m, _, hil, _⟩ := argmaxIdx_eq_some hm
        have : (acq_vals_of acq hx hy).length = min hy.length hx.length := by
          simp [acq_vals_of]
        rw [this] at hil
        exact ⟨lt_of_lt_of_le hil (min_le_left _ _),
               lt_of_lt_of_le hil (min_le_right _ _)⟩
      cases hhx : hx[i]? with
      | none =>
        rw [List.getElem?_eq_getElem hlen.2] at hhx; simp at hhx
      | some a =>
        cases hhy : hy[i]? with
        | none =>
          rw [List.getElem?_eq_getElem hlen.1] at hhy; simp at hhy
        | some b =>
          rw [hhx, hhy] at h
          dsimp only at h
          simp only [Except.ok.injEq, Prod.mk.injEq] at h
          obtain ⟨hax, hbv, hxx, hyy⟩ := h
          subst hax; subst hbv
          exact ⟨i, hge, hlen.1, hlen.2, hhx, hhy,
                 hxx.symm.trans (sliceRemove_eq_eraseIdx hx i),
                 hyy.symm.trans (sliceRemove_eq_eraseIdx hy i), rfl⟩

lemma update_random_ok {α : Type} {idx : ℕ} {br : List ℚ} {hx : List α}
    {hy br' : List ℚ} {hx' : List α} {hy' : List ℚ}
    (h : update_random_observations idx br hx hy = .ok (br', hx', hy')) :
    ∃ v prev, idx < hy.length ∧ hy[idx]? = some v ∧
      br.getLast? = some prev ∧ br' = br ++ [max prev v] ∧
      hx' = hx.eraseIdx idx ∧ hy' = hy.eraseIdx idx := by
  unfold update_random_observations at h
  split at h
  · simp at h
  next hne =>
    cases hhy : hy[idx]? with
    | none => rw [hhy] at h; simp at h
    | some v =>
      rw [hhy] at h
      dsimp only at h
      cases hlast : br.getLast? with
      | none => rw [hlast] at h; simp at h
      | some prev =>
        rw [hlast] at h
        dsimp only at h
        simp only [Except.ok.injEq, Prod.mk.injEq] at h
        obtain ⟨hbr, hxx, hyy⟩ := h
        refine ⟨v, prev, ?_, rfl, rfl, hbr.symm,
                hxx.symm.trans (sliceRemove_eq_eraseIdx hx idx),
                hyy.symm.trans (sliceRemove_eq_eraseIdx hy idx)⟩
        exact (List.getElem?_eq_some_iff.mp hhy).1

lemma bo_iteration_ok {α S : Type} {d : S} {fitF : List α → List ℚ → S → S}
    {mkAcq : S → ℚ → α → ℚ} {i : ℕ} {st st' : TrialState α S}
    (h : bo_iteration d fitF mkAcq i st = .ok st') :
    ∃ bf ei xsel vsel vr prev_e prev_r,
      best_f_of st.train_y_ei = some bf ∧
      ei < st.heldout_y_ei.length ∧ ei < st.heldout_x_ei.length ∧
      st.heldout_x_ei[ei]? = some xsel ∧ st.heldout_y_ei[ei]? = some vsel ∧
      st'.train_x_ei = st.train_x_ei ++ [xsel] ∧
      st'.train_y_ei = st.train_y_ei ++ [vsel] ∧
      st'.heldout_x_ei = st.heldout_x_ei.eraseIdx ei ∧
      st'.heldout_y_ei = st.heldout_y_ei.eraseIdx ei ∧
      i < st.heldout_y_random.length ∧
      st.heldout_y_random[i]? = some vr ∧
      st.best_random.getLast? = some prev_r ∧
      st'.best_random = st.best_random ++ [max prev_r vr] ∧
      st'.heldout_x_random = st.heldout_x_random.eraseIdx i ∧
      st'.heldout_y_random = st.heldout_y_random.eraseIdx i ∧
      st.best_observed_ei.getLast? = some prev_e ∧
      st'.best_observed_ei = st.best_observed_ei ++ [max vsel prev_e] ∧
      st'.model_state = fitF st.train_x_ei st.train_y_ei st.model_state := by
  unfold bo_iteration at h
  cases hbf : best_f_of st.train_y_ei with
  | none => rw [hbf] at h; simp at h
  | some bf =>
    rw [hbf] at h
    dsimp only at h
    cases hopt : optimize_acqf_and_get_observation
        (mkAcq (fitF st.train_x_ei st.train_y_ei st.model_state) bf)
        st.heldout_x_ei st.heldout_y_ei with
    | error e => rw [hopt] at h; simp at h
    | ok p =>
      obtain ⟨new_x, new_obj, hx, hy⟩ := p
      rw [hopt] at h
      dsimp only at h
      cases hupd : update_random_observations i st.best_random
          st.heldout_x_random st.heldout_y_random with
      | error e => rw [hupd] at h; simp at h
      | ok q =>
        obtain ⟨br, hxr, hyr⟩ := q
        rw [hupd] at h
        dsimp only at h
        cases hlast : st.best_observed_ei.getLast? with
        | none => rw [hlast] at h; simp at h
        | some prev =>
          rw [hlast] at h
          dsimp only at h
          simp only [Except.ok.injEq] at h
          obtain ⟨ei, _, hei_y, hei_x, hxe, hye, hhx, hhy, _⟩ :=
            optimize_ok hopt
          obtain ⟨vr, prev_r, hir, hyv, hlr, hbr, hhxr, hhyr⟩ :=
            update_random_ok hupd
          subst h
          exact ⟨bf, ei, new_x, new_obj, vr, prev, prev_r, rfl,
                 hei_y, hei_x, hxe, hye, rfl, rfl, hhx, hhy,
                 hir, hyv, hlr, hbr, hhxr, hhyr, rfl, rfl, rfl⟩

lemma runIters_succ_ok {α S : Type} {d : S} {fitF : List α → List ℚ → S → S}
    {mkAcq : S → ℚ → α → ℚ} {ridx : ℕ → ℕ} {k : ℕ} {st0 st : TrialState α S}
    (h : runIters d fitF mkAcq ridx (k + 1) st0 = .ok st) :
    ∃ st', runIters d fitF mkAcq ridx k st0 = .ok st' ∧
      bo_iteration d fitF mkAcq (ridx k) st' = .ok st := by
  unfold runIters at h
  cases hk : runIters d fitF mkAcq ridx k st0 with
  | error e => rw [hk] at h; simp at h
  | ok st' => rw [hk] at h; exact ⟨st', rfl, h⟩

/-! ### Invariants preserved by the loop -/

lemma runIters_ok_invariant {α S : Type} {d : S} {fitF : List α → List ℚ → S → S}
    {mkAcq : S → ℚ → α → ℚ} {ridx : ℕ → ℕ} :
    ∀ {k : ℕ} {st0 st : TrialState α S},
      runIters d fitF mkAcq ridx k st0 = .ok st →
      (st.train_x_ei ++ st.heldout_x_ei).Perm (st0.train_x_ei ++ st0.heldout_x_ei) ∧
      st.heldout_x_ei.Sublist st0.heldout_x_ei ∧
      st.heldout_x_random.Sublist st0.heldout_x_random ∧
      (st0.heldout_x_random.length = st0.heldout_y_random.length →
        st.heldout_x_random.length + k = st0.heldout_x_random.length ∧
        st.heldout_x_random.length = st.heldout_y_random.length) ∧
      st.train_x_ei.length = st0.train_x_ei.length + k ∧
      st.train_y_ei.length = st0.train_y_ei.length + k ∧
      st.best_observed_ei.length = st0.best_observed_ei.length + k ∧
      st.best_random.length = st0.best_random.length + k ∧
      st.best_observed_ei.head? = st0.best_observed_ei.head? ∧
      st.best_random.head? = st0.best_random.head? ∧
      (st0.best_observed_ei.Chain' (· ≤ ·) → st.best_observed_ei.Chain' (· ≤ ·)) ∧
      (st0.best_random.Chain' (· ≤ ·) → st.best_random.Chain' (· ≤ ·)) ∧
      (st0.train_y_ei.max? = st0.best_observed_ei.getLast? →
        st.train_y_ei.max? = st.best_observed_ei.getLast?)
  | 0, st0, st, h => by
      cases h
      exact ⟨List.Perm.refl _, List.Sublist.refl _, List.Sublist.refl _,
             fun ha => ⟨rfl, ha⟩, rfl, rfl, rfl, rfl, rfl, rfl,
             fun hc => hc, fun hc => hc, fun hc => hc⟩
  | k + 1, st0, st, h => by
      obtain ⟨st', hk, hstep⟩ := runIters_succ_ok h
      obtain ⟨hperm, hsub, hsubr, hlenr, hltx, hlty, hlbe, hlbr,
              hhde, hhdr, hche, hchr, hmaxlast⟩ :=
        runIters_ok_invariant hk
      obtain ⟨bf, ei, xsel, vsel, vr, prev_e, prev_r, hbf, hei_y, hei_x,
              hxe, hye, htx, hty, hhx, hhy, hir, hyv, hlr, hbr, hhxr, hhyr,
              hle, hbe, hms⟩ := bo_iteration_ok hstep
      have hstep_perm : (st.train_x_ei ++ st.heldout_x_ei).Perm
          (st'.train_x_ei ++ st'.heldout_x_ei) := by
        rw [htx, hhx, List.append_assoc]
        exact List.Perm.append_left st'.train_x_ei (cons_eraseIdx_perm hxe)
      refine ⟨hstep_perm.trans hperm,
              (hhx ▸ List.eraseIdx_sublist st'.heldout_x_ei ei).trans hsub,
              (hhxr ▸ List.eraseIdx_sublist st'.heldout_x_random (ridx k)).trans hsubr,
              ?_, ?_, ?_, ?_, ?_, ?_, ?_, ?_, ?_, ?_⟩
      · intro ha0
        obtain ⟨hl1, halign⟩ := hlenr ha0
        have hirx : ridx k < st'.heldout_x_random.length := halign ▸ hir
        constructor
        · rw [hhxr, List.length_eraseIdx, if_pos hirx]
          omega
        · rw [hhxr, hhyr, List.length_eraseIdx, List.length_eraseIdx,
              if_pos hirx, if_pos hir, halign]
      · rw [htx]; simp; omega
      · rw [hty]; simp; omega
      · rw [hbe]; simp; omega
      · rw [hbr]; simp; omega
      · rw [hbe, head?_concat_of_getLast? hle]; exact hhde
      · rw [hbr, head?_concat_of_getLast? hlr]; exact hhdr
      · intro hc
        rw [hbe]
        exact chain'_le_concat (hche hc) hle (le_max_right vsel prev_e)
      · intro hc
        rw [hbr]
        exact chain'_le_concat (hchr hc) hlr (le_max_left prev_r vr)
      · intro hinv
        have hinv' := hmaxlast hinv
        have hbf' : st'.train_y_ei.max? = some bf := hbf
        have hbfe : bf = prev_e := by
          rw [hbf', hle] at hinv'
          exact Option.some.inj hinv'
        rw [hty, hbe, max?_concat, hbf']
        simp [List.getLast?_append, hbfe, max_comm]

lemma runIters_pool_mono {α S : Type} {d : S} {fitF : List α → List ℚ → S → S}
    {mkAcq : S → ℚ → α → ℚ} {ridx : ℕ → ℕ} :
    ∀ {k j : ℕ} {st0 stj st : TrialState α S}, j ≤ k →
      runIters d fitF mkAcq ridx k st0 = .ok st →
      runIters d fitF mkAcq ridx j st0 = .ok stj →
      st.heldout_x_ei.Sublist stj.heldout_x_ei ∧
      st.heldout_x_random.Sublist stj.heldout_x_random
  | 0, j, st0, stj, st, hj, h, hjrun => by
      have hj0 : j = 0 := Nat.le_zero.mp hj
      subst hj0
      cases h; cases hjrun
      exact ⟨List.Sublist.refl _, List.Sublist.refl _⟩
  | k + 1, j, st0, stj, st, hj, h, hjrun => by
      obtain ⟨st', hk, hstep⟩ := runIters_succ_ok h
      obtain ⟨bf, ei, xsel, vsel, vr, prev_e, prev_r, hbf, hei_y, hei_x,
              hxe, hye, htx, hty, hhx, hhy, hir, hyv, hlr, hbr, hhxr, hhyr,
              hle, hbe, hms⟩ := bo_iteration_ok hstep
      rcases Nat.lt_or_ge j (k + 1) with hlt | hge
      · have hjk : j ≤ k := Nat.lt_succ_iff.mp hlt
        obtain ⟨h1, h2⟩ := runIters_pool_mono hjk hk hjrun
        exact ⟨(hhx ▸ List.eraseIdx_sublist st'.heldout_x_ei _).trans h1,
               (hhxr ▸ List.eraseIdx_sublist st'.heldout_x_random _).trans h2⟩
      · have hjeq : j = k + 1 := le_antisymm hj hge
        subst hjeq
        have heq : stj = st := Except.ok.inj (hjrun.symm.trans h)
        subst heq
        exact ⟨List.Sublist.refl _, List.Sublist.refl _⟩

/-- A nodup list is permuted to the part of it outside a sublist `s`,
followed by `s` itself. -/
lemma filter_not_mem_append_perm {l s : List ℕ} (hs : s.Sublist l) (hnd : l.Nodup) :
    (l.filter (fun i => decide (i ∉ s)) ++ s).Perm l := by
  induction hs with
  | slnil => simp
  | @cons l₁ l₂ a hsub ih =>
      obtain ⟨hna, hnd'⟩ := List.nodup_cons.mp hnd
      have hnas : a ∉ l₁ := fun hmem => hna (hsub.mem hmem)
      have hstep := ih hnd'
      simp only [List.filter_cons]
      rw [if_pos (by simpa using hnas), List.cons_append]
      exact hstep.cons a
  | @cons₂ l₁ l₂ a hsub ih =>
      obtain ⟨hna, hnd'⟩ := List.nodup_cons.mp hnd
      have hstep := ih hnd'
      simp only [List.filter_cons]
      rw [if_neg (by simp)]
      have hcongr : l₂.filter (fun i => decide (i ∉ a :: l₁)) =
          l₂.filter (fun i => decide (i ∉ l₁)) := by
        apply List.filter_congr
        intro x hx
        have hxa : x ≠ a := fun he => hna (he ▸ hx)
        simp [hxa]
      rw [hcongr]
      exact List.perm_middle.trans (hstep.cons a)

/-! ### Anatomy of trial initialisation and the harness loop -/

lemma initTrial_ok {α S : Type} {d : S} {tx hx : List α} {ty hy : List ℚ}
    {st0 : TrialState α S} (h : initTrial d tx hx ty hy = .ok st0) :
    ∃ m, ty.max? = some m ∧
      st0 = { train_x_ei := tx, train_y_ei := ty,
              heldout_x_ei := hx, heldout_y_ei := hy,
              heldout_x_random := hx, heldout_y_random := hy,
              best_observed_ei := [m], best_random := [m],
              model_state := d } := by
  unfold initTrial at h
  cases hm : ty.max? with
  | none => rw [hm] at h; simp at h
  | some m =>
    rw [hm] at h
    dsimp only at h
    simp only [Except.ok.injEq] at h
    exact ⟨m, rfl, h.symm⟩

lemma runTrial_ok {S : Type} {d : S} {fitF : List (List ℚ) → List ℚ → S → S}
    {mkAcq : S → ℚ → List ℚ → ℚ} {ridx : ℕ → ℕ → ℕ}
    {split_fn : ℕ → List (List ℚ) → List ℚ →
      List (List ℚ) × List (List ℚ) × List ℚ × List ℚ}
    {trial : ℕ} {es es' : ExperimentState S}
    (h : runTrial d fitF mkAcq ridx split_fn trial es = .ok es') :
    ∃ (st0 st : TrialState (List ℚ) S),
      runIters d fitF mkAcq (ridx trial) N_ITERS st0 = .ok st ∧
      (∃ m, st0.best_observed_ei = [m] ∧ st0.best_random = [m]) ∧
      es' = { es with
              best_observed_all_ei := es.best_observed_all_ei ++ [st.best_observed_ei]
              best_random_all := es.best_random_all ++ [st.best_random] } := by
  unfold runTrial at h
  rcases hsplit : split_fn trial es.X es.y with ⟨tx, hx2, ty, hy2⟩
  rw [hsplit] at h
  dsimp only at h
  cases hinit : initTrial (α := List ℚ) d tx hx2 ty hy2 with
  | error e => rw [hinit] at h; simp at h
  | ok st0 =>
    rw [hinit] at h
    dsimp only at h
    cases hrun : runIters d fitF mkAcq (ridx trial) N_ITERS st0 with
    | error e => rw [hrun] at h; simp at h
    | ok st =>
      rw [hrun] at h
      dsimp only at h
      simp only [Except.ok.injEq] at h
      obtain ⟨m, _, hst0⟩ := initTrial_ok hinit
      exact ⟨st0, st, hrun, ⟨m, by rw [hst0], by rw [hst0]⟩, h.symm⟩

lemma runTrials_succ_ok {S : Type} {d : S} {fitF : List (List ℚ) → List ℚ → S → S}
    {mkAcq : S → ℚ → List ℚ → ℚ} {ridx : ℕ → ℕ → ℕ}
    {split_fn : ℕ → List (List ℚ) → List ℚ →
      List (List ℚ) × List (List ℚ) × List ℚ × List ℚ}
    {t : ℕ} {es0 es : ExperimentState S}
    (h : runTrials d fitF mkAcq ridx split_fn (t + 1) es0 = .ok es) :
    ∃ es', runTrials d fitF mkAcq ridx split_fn t es0 = .ok es' ∧
      runTrial d fitF mkAcq ridx split_fn (t + 1) es' = .ok es := by
  unfold runTrials at h
  cases hk : runTrials d fitF mkAcq ridx split_fn t es0 with
  | error e => rw [hk] at h; simp at h
  | ok es' => rw [hk] at h; exact ⟨es', rfl, h⟩

lemma runTrials_ok_invariant {S : Type} {d : S} {fitF : List (List ℚ) → List ℚ → S → S}
    {mkAcq : S → ℚ → List ℚ → ℚ} {ridx : ℕ → ℕ → ℕ}
    {split_fn : ℕ → List (List ℚ) → List ℚ →
      List (List ℚ) × List (List ℚ) × List ℚ × List ℚ} :
    ∀ {t : ℕ} {es0 es : ExperimentState S},
      runTrials d fitF mkAcq ridx split_fn t es0 = .ok es →
      es.X = es0.X ∧ es.y = es0.y ∧
      es.best_observed_all_ei.length = es0.best_observed_all_ei.length + t ∧
      es.best_random_all.length = es0.best_random_all.length + t
  | 0, es0, es, h => by
      cases h
      exact ⟨rfl, rfl, rfl, rfl⟩
  | t + 1, es0, es, h => by
      obtain ⟨es', hk, hstep⟩ := runTrials_succ_ok h
      obtain ⟨hX, hy, hle, hlr⟩ := runTrials_ok_invariant hk
      obtain ⟨st0, st, _, _, hes⟩ := runTrial_ok hstep
      subst hes
      refine ⟨hX, hy, ?_, ?_⟩ <;> simp <;> omega

/-! ### Concrete fixtures used by the witnesses -/

/-- A concrete fit function for witnesses (state dict type `ℕ`). -/
def fitW : List ℕ → List ℚ → ℕ → ℕ := fun tx _ s => s + tx.length

/-- A concrete acquisition for witnesses: score a candidate index by itself. -/
def acqW : ℕ → ℚ → ℕ → ℚ := fun _ _ i => (i : ℚ)

/-- A concrete initial trial state: train index 0 (label 0), pool indices
1, 2, 3 with labels 1, 2, 3. -/
def stW0 : TrialState ℕ ℕ :=
  { train_x_ei := [0], train_y_ei := [0]
    heldout_x_ei := [1, 2, 3], heldout_y_ei := [1, 2, 3]
    heldout_x_random := [1, 2, 3], heldout_y_random := [1, 2, 3]
    best_observed_ei := [0], best_random := [0], model_state := 7 }

/-- The state after one iteration from `stW0` (GP selects index 3, the
acquisition maximiser; the random policy draws pool position 0). -/
def stW1 : TrialState ℕ ℕ :=
  { train_x_ei := [0, 3], train_y_ei := [0, 3]
    heldout_x_ei := [1, 2], heldout_y_ei := [1, 2]
    heldout_x_random := [2, 3], heldout_y_random := [2, 3]
    best_observed_ei := [0, 3], best_random := [0, 1], model_state := 8 }

/-! ### Claim theorems -/

/-- Claim C2: for every trial and both policies, the best-observed-so-far
sequences are non-decreasing across the iterations of the loop, and on each
successful iteration the new entry appended to each trace is the maximum of
the previous entry and the label observed at that iteration. -/
theorem best_so_far_monotone {α S : Type} (d : S)
    (fitF : List α → List ℚ → S → S) (mkAcq : S → ℚ → α → ℚ)
    (ridx : ℕ → ℕ) (k : ℕ) (st0 st : TrialState α S)
    (h0e : st0.best_observed_ei.Chain' (· ≤ ·))
    (h0r : st0.best_random.Chain' (· ≤ ·))
    (hrun : runIters d fitF mkAcq ridx k st0 = .ok st) :
    st.best_observed_ei.Chain' (· ≤ ·) ∧ st.best_random.Chain' (· ≤ ·) ∧
    ∀ (i : ℕ) (st1 st2 : TrialState α S),
      bo_iteration d fitF mkAcq i st1 = .ok st2 →
      (∃ prev v, st1.best_observed_ei.getLast? = some prev ∧
        v ∈ st1.heldout_y_ei ∧
        st2.best_observed_ei = st1.best_observed_ei ++ [max v prev]) ∧
      (∃ prev v, st1.best_random.getLast? = some prev ∧
        v ∈ st1.heldout_y_random ∧
        st2.best_random = st1.best_random ++ [max prev v]) := by
  obtain ⟨_, _, _, _, _, _, _, _, _, _, hche, hchr, _⟩ :=
    runIters_ok_invariant hrun
  refine ⟨hche h0e, hchr h0r, ?_⟩
  intro i st1 st2 hstep
  obtain ⟨bf, ei, xsel, vsel, vr, prev_e, prev_r, hbf, hei_y, hei_x,
          hxe, hye, htx, hty, hhx, hhy, hir, hyv, hlr, hbr, hhxr, hhyr,
          hle, hbe, hms⟩ := bo_iteration_ok hstep
  exact ⟨⟨prev_e, vsel, hle, List.getElem?_mem hye, hbe⟩,
         ⟨prev_r, vr, hlr, List.getElem?_mem hyv, hbr⟩⟩

/-- Claim C2 witness: a concrete one-iteration run. -/
theorem best_so_far_monotone_witness :
    stW0.best_observed_ei.Chain' (· ≤ ·) ∧
    stW0.best_random.Chain' (· ≤ ·) ∧
    runIters 7 fitW acqW (fun _ => 0) 1 stW0 = Except.ok stW1 ∧
    (stW1.best_observed_ei.Chain' (· ≤ ·) ∧ stW1.best_random.Chain' (· ≤ ·) ∧
     ∀ (i : ℕ) (st1 st2 : TrialState ℕ ℕ),
       bo_iteration 7 fitW acqW i st1 = .ok st2 →
       (∃ prev v, st1.best_observed_ei.getLast? = some prev ∧
         v ∈ st1.heldout_y_ei ∧
         st2.best_observed_ei = st1.best_observed_ei ++ [max v prev]) ∧
       (∃ prev v, st1.best_random.getLast? = some prev ∧
         v ∈ st1.heldout_y_random ∧
         st2.best_random = st1.best_random ++ [max prev v])) :=
  ⟨List.chain'_singleton (0 : ℚ), List.chain'_singleton (0 : ℚ), rfl,
   best_so_far_monotone 7 fitW acqW (fun _ => 0) 1 stW0 stW1
     (List.chain'_singleton (0 : ℚ)) (List.chain'_singleton (0 : ℚ)) rfl⟩

/-- Claim C5: after `k` iterations from a successful per-trial
initialisation, both traces have length `k + 1` and share entry 0, which is
the maximum label of the initial train set; in particular a completed trial
(`runTrial`, which runs `N_ITERS` iterations) appends to the experiment
accumulators one GP trace and one random trace of length `N_ITERS + 1` with
identical entry 0. -/
theorem trial_trace_shape {α S : Type} (d : S)
    (fitF : List α → List ℚ → S → S) (mkAcq : S → ℚ → α → ℚ)
    (ridx : ℕ → ℕ) (k : ℕ) (tx hx : List α) (ty hy : List ℚ)
    (st0 st : TrialState α S)
    (hinit : initTrial d tx hx ty hy = .ok st0)
    (hrun : runIters d fitF mkAcq ridx k st0 = .ok st) :
    st.best_observed_ei.length = k + 1 ∧
    st.best_random.length = k + 1 ∧
    st.best_observed_ei.head? = st.best_random.head? ∧
    st.best_observed_ei.head? = ty.max? ∧
    ∀ (S' : Type) (d' : S') (fitF' : List (List ℚ) → List ℚ → S' → S')
      (mkAcq' : S' → ℚ → List ℚ → ℚ) (ridx' : ℕ → ℕ → ℕ)
      (split_fn : ℕ → List (List ℚ) → List ℚ →
        List (List ℚ) × List (List ℚ) × List ℚ × List ℚ)
      (trial : ℕ) (es es' : ExperimentState S'),
      runTrial d' fitF' mkAcq' ridx' split_fn trial es = .ok es' →
      ∃ tr br, es'.best_observed_all_ei = es.best_observed_all_ei ++ [tr] ∧
        es'.best_random_all = es.best_random_all ++ [br] ∧
        tr.length = N_ITERS + 1 ∧ br.length = N_ITERS + 1 ∧
        tr.head? = br.head? := by
  obtain ⟨m, hmax, hst0⟩ := initTrial_ok hinit
  obtain ⟨_, _, _, _, _, _, hlbe, hlbr, hhde, hhdr, _, _, _⟩ :=
    runIters_ok_invariant hrun
  subst hst0
  refine ⟨by simp at hlbe; omega, by simp at hlbr; omega,
          by rw [hhde, hhdr], by rw [hhde, hmax]; rfl, ?_⟩
  intro S' d' fitF' mkAcq' ridx' split_fn trial es es' htr
  obtain ⟨st0', st', hrun', ⟨m', hbe0, hbr0⟩, hes⟩ := runTrial_ok htr
  obtain ⟨_, _, _, _, _, _, hlbe', hlbr', hhde', hhdr', _, _, _⟩ :=
    runIters_ok_invariant hrun'
  refine ⟨st'.best_observed_ei, st'.best_random, by rw [hes], by rw [hes],
          ?_, ?_, ?_⟩
  · rw [hlbe', hbe0]; simp [Nat.add_comm]
  · rw [hlbr', hbr0]; simp [Nat.add_comm]
  · rw [hhde', hhdr', hbe0, hbr0]

/-- Claim C5 witness: a concrete one-iteration trial. -/
theorem trial_trace_shape_witness :
    initTrial 7 [0] [1, 2, 3] [(0 : ℚ)] [1, 2, 3] = Except.ok stW0 ∧
    runIters 7 fitW acqW (fun _ => 0) 1 stW0 = Except.ok stW1 ∧
    (stW1.best_observed_ei.length = 1 + 1 ∧
     stW1.best_random.length = 1 + 1 ∧
     stW1.best_observed_ei.head? = stW1.best_random.head? ∧
     stW1.best_observed_ei.head? = List.max? [(0 : ℚ)] ∧
     ∀ (S' : Type) (d' : S') (fitF' : List (List ℚ) → List ℚ → S' → S')
       (mkAcq' : S' → ℚ → List ℚ → ℚ) (ridx' : ℕ → ℕ → ℕ)
       (split_fn : ℕ → List (List ℚ) → List ℚ →
         List (List ℚ) × List (List ℚ) × List ℚ × List ℚ)
       (trial : ℕ) (es es' : ExperimentState S'),
       runTrial d' fitF' mkAcq' ridx' split_fn trial es = .ok es' →
       ∃ tr br, es'.best_observed_all_ei = es.best_observed_all_ei ++ [tr] ∧
         es'.best_random_all = es.best_random_all ++ [br] ∧
         tr.length = N_ITERS + 1 ∧ br.length = N_ITERS + 1 ∧
         tr.head? = br.head?) :=
  ⟨rfl, rfl,
   trial_trace_shape 7 fitW acqW (fun _ => 0) 1 [0] [1, 2, 3] [(0 : ℚ)]
     [1, 2, 3] stW0 stW1 rfl rfl⟩

/-- Claim C6: the per-trial initialisation builds the model without a state
dict, so its hyperparameter state is the library default; and every
successful iteration re-initialises the model from the state dict produced
by that iteration's fit, so the next fit starts from the previous fit's
result rather than from defaults. -/
theorem warm_start_model_state {α S : Type} (d : S)
    (fitF : List α → List ℚ → S → S) (mkAcq : S → ℚ → α → ℚ) :
    (∀ (tx hx : List α) (ty hy : List ℚ) (st0 : TrialState α S),
      initTrial d tx hx ty hy = .ok st0 →
      st0.model_state = init_model d none ∧ st0.model_state = d) ∧
    (∀ (i : ℕ) (st1 st2 : TrialState α S),
      bo_iteration d fitF mkAcq i st1 = .ok st2 →
      st2.model_state =
        init_model d (some (fitF st1.train_x_ei st1.train_y_ei st1.model_state)) ∧
      st2.model_state = fitF st1.train_x_ei st1.train_y_ei st1.model_state) := by
  constructor
  · intro tx hx ty hy st0 hinit
    obtain ⟨m, _, hst0⟩ := initTrial_ok hinit
    subst hst0
    exact ⟨rfl, rfl⟩
  · intro i st1 st2 hstep
    obtain ⟨bf, ei, xsel, vsel, vr, prev_e, prev_r, _, _, _, _, _, _, _, _,
            _, _, _, _, _, _, _, _, _, hms⟩ := bo_iteration_ok hstep
    exact ⟨hms, hms⟩

/-- Claim C6 witness: the concrete trial starts from default state 7, and
after one fit (`fitW`, which adds the train-set size to the state) the
stored state is the fitted state 8, from which the next fit starts. -/
theorem warm_start_model_state_witness :
    initTrial 7 [0] [1, 2, 3] [(0 : ℚ)] [1, 2, 3] = Except.ok stW0 ∧
    stW0.model_state = 7 ∧
    bo_iteration 7 fitW acqW 0 stW0 = Except.ok stW1 ∧
    stW1.model_state = fitW stW0.train_x_ei stW0.train_y_ei stW0.model_state :=
  ⟨rfl,
   ((warm_start_model_state 7 fitW acqW).1 [0] [1, 2, 3] [(0 : ℚ)] [1, 2, 3]
     stW0 rfl).2,
   rfl,
   ((warm_start_model_state 7 fitW acqW).2 0 stW0 stW1 rfl).2⟩

/-- Claim C9: at every reachable state of a trial, the `best_f` value that
the loop passes to the Expected Improvement acquisition (the maximum label
of the current GP train set, `best_f_of`) equals the last entry of the GP
policy's best-so-far trace. -/
theorem ei_best_f_eq_trace_last {α S : Type} (d : S)
    (fitF : List α → List ℚ → S → S) (mkAcq : S → ℚ → α → ℚ)
    (ridx : ℕ → ℕ) (k : ℕ) (tx hx : List α) (ty hy : List ℚ)
    (st0 st : TrialState α S)
    (hinit : initTrial d tx hx ty hy = .ok st0)
    (hrun : runIters d fitF mkAcq ridx k st0 = .ok st) :
    best_f_of st.train_y_ei = st.best_observed_ei.getLast? := by
  obtain ⟨m, hmax, hst0⟩ := initTrial_ok hinit
  obtain ⟨_, _, _, _, _, _, _, _, _, _, _, _, hmaxlast⟩ :=
    runIters_ok_invariant hrun
  apply hmaxlast
  subst hst0
  simpa using hmax

/-- Claim C9 witness: concrete check after one iteration (train labels
`[0, 3]`, trace `[0, 3]`). -/
theorem ei_best_f_eq_trace_last_witness :
    initTrial 7 [0] [1, 2, 3] [(0 : ℚ)] [1, 2, 3] = Except.ok stW0 ∧
    runIters 7 fitW acqW (fun _ => 0) 1 stW0 = Except.ok stW1 ∧
    best_f_of stW1.train_y_ei = stW1.best_observed_ei.getLast? :=
  ⟨rfl, rfl,
   ei_best_f_eq_trace_last 7 fitW acqW (fun _ => 0) 1 [0] [1, 2, 3]
     [(0 : ℚ)] [1, 2, 3] stW0 stW1 rfl rfl⟩

/-- A constant-zero acquisition used by the C3 counterexample. -/
def zeroAcq : ℚ → ℚ := fun _ => 0

/-- Claim C3 (amended): invoking either selection operation on an empty
heldout pool fails with an error — `torch.argmax` on the empty
acquisition-value tensor for the Discrete Optimizer, and out-of-range
indexing of `torch.randperm(0)` for the Random Baseline — and never
returns a point.  The notebook defines no `EmptyPoolError` class; the
failure is a generic library exception. -/
theorem empty_pool_selection_fails {α : Type} (acq : α → ℚ) (idx : ℕ)
    (br : List ℚ) :
    optimize_acqf_and_get_observation acq ([] : List α) [] =
      .error PyError.argmaxEmpty ∧
    update_random_observations idx br ([] : List α) [] =
      .error PyError.indexError := by
  exact ⟨rfl, rfl⟩

/-- Claim C3 counterexample: on an empty pool the code's failure is not the
spec's `EmptyPoolError` — no such class exists in the notebook; the errors
produced are the generic library failures. -/
theorem empty_pool_not_emptyPoolError :
    optimize_acqf_and_get_observation zeroAcq ([] : List ℚ) [] ≠
      Except.error PyError.emptyPoolError ∧
    update_random_observations 0 [(0 : ℚ)] ([] : List ℚ) [] ≠
      Except.error PyError.emptyPoolError := by
  constructor
  · intro h
    have h' : PyError.argmaxEmpty = PyError.emptyPoolError :=
      Except.error.inj h
    cases h'
  · intro h
    have h' : PyError.indexError = PyError.emptyPoolError :=
      Except.error.inj h
    cases h'

/-- Claim C4: on a non-empty pool (with inputs and labels of equal length),
the Discrete Optimizer's scoring list is exactly the pool mapped once, in
order, through the acquisition function, and the returned point attains the
maximum acquisition score, with ties broken by the lowest pool index (every
strictly earlier pool entry scores strictly less). -/
theorem discrete_optimizer_first_argmax {α : Type} (acq : α → ℚ)
    (hx : List α) (hy : List ℚ) (hne : hy ≠ [])
    (hlen : hx.length = hy.length) :
    acq_vals_of acq hx hy = hx.map acq ∧
    ∃ i x v, optimize_acqf_and_get_observation acq hx hy =
        .ok (x, v, hx.eraseIdx i, hy.eraseIdx i) ∧
      i < hx.length ∧ hx[i]? = some x ∧ hy[i]? = some v ∧
      (∀ (j : ℕ) (y : α), hx[j]? = some y → acq y ≤ acq x) ∧
      (∀ (j : ℕ) (y : α), j < i → hx[j]? = some y → acq y < acq x) := by
  have hvals : acq_vals_of acq hx hy = hx.map acq := by
    rw [acq_vals_of, ← hlen, List.take_length]
  refine ⟨hvals, ?_⟩
  have hxne : hx ≠ [] := by
    intro hnil
    rw [hnil] at hlen
    exact hne (List.length_eq_zero.mp hlen.symm)
  have hvne : acq_vals_of acq hx hy ≠ [] := by
    rw [hvals]
    simpa using hxne
  obtain ⟨i, hm⟩ := argmaxIdx_of_ne_nil hvne
  obtain ⟨m, hmax, hil, him, hub, hstrict⟩ := argmaxIdx_eq_some hm
  rw [hvals] at hil him hub hstrict
  simp only [List.length_map] at hil
  have hxi : hx[i]? = some hx[i] := List.getElem?_eq_getElem hil
  have hyi : hy[i]? = some hy[i] := List.getElem?_eq_getElem (hlen ▸ hil)
  have hacq : acq hx[i] = m := by
    have := him
    rw [List.getElem?_map, hxi] at this
    simpa using this
  refine ⟨i, hx[i], hy[i], ?_, hil, hxi, hyi, ?_, ?_⟩
  · unfold optimize_acqf_and_get_observation
    rw [if_neg (by omega), hm]
    dsimp only
    rw [hxi, hyi]
    dsimp only
    rw [sliceRemove_eq_eraseIdx, sliceRemove_eq_eraseIdx]
  · intro j y hj
    have hjl : j < hx.length := (List.getElem?_eq_some_iff.mp hj).1
    have : (hx.map acq)[j]? = some (acq y) := by
      rw [List.getElem?_map, hj]; rfl
    rw [← hacq] at hub
    exact hub j (acq y) this
  · intro j y hji hj
    have : (hx.map acq)[j]? = some (acq y) := by
      rw [List.getElem?_map, hj]; rfl
    rw [← hacq] at hstrict
    exact hstrict j (acq y) hji this

/-- Claim C4 witness: the pool `[5, 7, 7, 3]` under the identity-like
acquisition has two tied maximisers at indices 1 and 2; index 1 is chosen. -/
theorem discrete_optimizer_first_argmax_witness :
    ([(50 : ℚ), 70, 70, 30] : List ℚ) ≠ [] ∧
    ([(5 : ℚ), 7, 7, 3] : List ℚ).length = [(50 : ℚ), 70, 70, 30].length ∧
    (acq_vals_of (fun v : ℚ => v) [5, 7, 7, 3] [50, 70, 70, 30] =
        ([(5 : ℚ), 7, 7, 3]).map (fun v => v) ∧
     ∃ i x v, optimize_acqf_and_get_observation (fun v : ℚ => v)
          [5, 7, 7, 3] [50, 70, 70, 30] =
        .ok (x, v, ([(5 : ℚ), 7, 7, 3]).eraseIdx i,
             ([(50 : ℚ), 70, 70, 30]).eraseIdx i) ∧
      i < ([(5 : ℚ), 7, 7, 3] : List ℚ).length ∧
      ([(5 : ℚ), 7, 7, 3] : List ℚ)[i]? = some x ∧
      ([(50 : ℚ), 70, 70, 30] : List ℚ)[i]? = some v ∧
      (∀ (j : ℕ) (y : ℚ), ([(5 : ℚ), 7, 7, 3] : List ℚ)[j]? = some y →
        (fun v : ℚ => v) y ≤ (fun v : ℚ => v) x) ∧
      (∀ (j : ℕ) (y : ℚ), j < i → ([(5 : ℚ), 7, 7, 3] : List ℚ)[j]? = some y →
        (fun v : ℚ => v) y < (fun v : ℚ => v) x)) :=
  ⟨by decide, by decide,
   discrete_optimizer_first_argmax (fun v : ℚ => v) [5, 7, 7, 3]
     [50, 70, 70, 30] (by decide) (by decide)⟩

/-- Claim C10: every selection removes the same single index from the pool's
input list and label list, the returned label is the one paired with the
returned point, and the positional pairing of the remaining pool inputs and
labels is preserved (the zipped pool loses exactly that one pair). -/
theorem selection_pairing {α : Type} :
    (∀ (acq : α → ℚ) (hx : List α) (hy : List ℚ) (x : α) (v : ℚ)
       (hx' : List α) (hy' : List ℚ),
      optimize_acqf_and_get_observation acq hx hy = .ok (x, v, hx', hy') →
      ∃ i, hx' = hx.eraseIdx i ∧ hy' = hy.eraseIdx i ∧
        (hx.zip hy)[i]? = some (x, v) ∧
        hx'.zip hy' = (hx.zip hy).eraseIdx i) ∧
    (∀ (idx : ℕ) (br : List ℚ) (hx : List α) (hy br' : List ℚ)
       (hx' : List α) (hy' : List ℚ),
      update_random_observations idx br hx hy = .ok (br', hx', hy') →
      ∃ v prev, hy[idx]? = some v ∧ br.getLast? = some prev ∧
        br' = br ++ [max prev v] ∧
        hx' = hx.eraseIdx idx ∧ hy' = hy.eraseIdx idx ∧
        hx'.zip hy' = (hx.zip hy).eraseIdx idx ∧
        (∀ xr, hx[idx]? = some xr → (hx.zip hy)[idx]? = some (xr, v))) := by
  constructor
  · intro acq hx hy x v hx' hy' h
    obtain ⟨i, _, _, _, hxe, hye, hhx, hhy, _⟩ := optimize_ok h
    refine ⟨i, hhx, hhy, ?_, ?_⟩
    · rw [List.getElem?_zip_eq_some]
      exact ⟨hxe, hye⟩
    · rw [hhx, hhy, zip_eraseIdx]
  · intro idx br hx hy br' hx' hy' h
    obtain ⟨v, prev, _, hyv, hlast, hbr, hhx, hhy⟩ := update_random_ok h
    refine ⟨v, prev, hyv, hlast, hbr, hhx, hhy, ?_, ?_⟩
    · rw [hhx, hhy, zip_eraseIdx]
    · intro xr hxr
      rw [List.getElem?_zip_eq_some]
      exact ⟨hxr, hyv⟩

/-- Claim C10 witness: both selection operations applied to the concrete
pool `([5, 7], [50, 70])`. -/
theorem selection_pairing_witness :
    optimize_acqf_and_get_observation (fun v : ℚ => v) [(5 : ℚ), 7]
      [50, 70] = .ok (7, 70, [5], [50]) ∧
    (∃ i, ([(5 : ℚ)] : List ℚ) = ([(5 : ℚ), 7]).eraseIdx i ∧
      ([(50 : ℚ)] : List ℚ) = ([(50 : ℚ), 70]).eraseIdx i ∧
      (([(5 : ℚ), 7]).zip [(50 : ℚ), 70])[i]? = some (7, 70) ∧
      ([(5 : ℚ)]).zip [(50 : ℚ)] =
        (([(5 : ℚ), 7]).zip [(50 : ℚ), 70]).eraseIdx i) ∧
    update_random_observations 1 [(2 : ℚ)] [(5 : ℚ), 7] [50, 70] =
      .ok ([2, 70], [5], [50]) ∧
    (∃ v prev, ([(50 : ℚ), 70] : List ℚ)[1]? = some v ∧
      ([(2 : ℚ)] : List ℚ).getLast? = some prev ∧
      ([(2 : ℚ), 70] : List ℚ) = [(2 : ℚ)] ++ [max prev v] ∧
      ([(5 : ℚ)] : List ℚ) = ([(5 : ℚ), 7]).eraseIdx 1 ∧
      ([(50 : ℚ)] : List ℚ) = ([(50 : ℚ), 70]).eraseIdx 1 ∧
      ([(5 : ℚ)]).zip [(50 : ℚ)] =
        (([(5 : ℚ), 7]).zip [(50 : ℚ), 70]).eraseIdx 1 ∧
      (∀ xr, ([(5 : ℚ), 7] : List ℚ)[1]? = some xr →
        (([(5 : ℚ), 7]).zip [(50 : ℚ), 70])[1]? = some (xr, v))) :=
  ⟨rfl,
   (selection_pairing.1 (fun v : ℚ => v) [5, 7] [50, 70] 7 70 [5] [50] rfl),
   rfl,
   (selection_pairing.2 1 [(2 : ℚ)] [(5 : ℚ), 7] [50, 70] [2, 70] [5] [50] rfl)⟩

/-- Claim C1: with the trial loop run over dataset indices, for every
number of iterations the GP policy's train list and heldout pool form a
partition of the full index set (disjoint, union the whole of
`List.range N`, lengths summing to `N`); the random policy's pool,
tracked independently, stays a duplicate-free sub-collection of the initial
pool whose complement (initial train plus the points drawn so far) completes
the partition, with `|train0| + k` points observed after `k` iterations;
and a candidate removed from a pool by a selection never reappears in that
pool. -/
theorem gp_random_partition_invariant {S : Type} (N k : ℕ) (d : S)
    (fitF : List ℕ → List ℚ → S → S) (mkAcq : S → ℚ → ℕ → ℚ)
    (ridx : ℕ → ℕ) (st0 st : TrialState ℕ S)
    (hpart : (st0.train_x_ei ++ st0.heldout_x_ei).Perm (List.range N))
    (hrpool : st0.heldout_x_random = st0.heldout_x_ei)
    (hralign : st0.heldout_x_random.length = st0.heldout_y_random.length)
    (hrun : runIters d fitF mkAcq ridx k st0 = .ok st) :
    (st.train_x_ei ++ st.heldout_x_ei).Perm (List.range N) ∧
    st.train_x_ei.Disjoint st.heldout_x_ei ∧
    (∀ i, i ∈ List.range N ↔ i ∈ st.train_x_ei ∨ i ∈ st.heldout_x_ei) ∧
    st.train_x_ei.length + st.heldout_x_ei.length = N ∧
    st.heldout_x_random.Sublist st0.heldout_x_ei ∧
    st.heldout_x_random.Nodup ∧
    ((st0.train_x_ei ++
        st0.heldout_x_ei.filter (fun i => decide (i ∉ st.heldout_x_random))) ++
      st.heldout_x_random).Perm (List.range N) ∧
    (st0.train_x_ei.length + k) + st.heldout_x_random.length = N ∧
    (∀ (j : ℕ) (stj : TrialState ℕ S), j ≤ k →
      runIters d fitF mkAcq ridx j st0 = .ok stj →
      (∀ x, x ∉ stj.heldout_x_ei → x ∉ st.heldout_x_ei) ∧
      (∀ x, x ∉ stj.heldout_x_random → x ∉ st.heldout_x_random)) ∧
    (∀ (j : ℕ) (stj stj' : TrialState ℕ S),
      runIters d fitF mkAcq ridx j st0 = .ok stj →
      bo_iteration d fitF mkAcq (ridx j) stj = .ok stj' →
      (∃ xs, stj'.train_x_ei = stj.train_x_ei ++ [xs] ∧
        xs ∉ stj'.heldout_x_ei) ∧
      (∃ ri xr, stj.heldout_x_random[ri]? = some xr ∧
        stj'.heldout_x_random = stj.heldout_x_random.eraseIdx ri ∧
        xr ∉ stj'.heldout_x_random)) := by
  have nodup0 : (st0.train_x_ei ++ st0.heldout_x_ei).Nodup :=
    hpart.symm.nodup (List.nodup_range N)
  have nodup0_pool : st0.heldout_x_ei.Nodup :=
    (List.nodup_append.mp nodup0).2.1
  obtain ⟨hperm, hsub, hsubr, hlenr, hltx, hlty, _, _, _, _, _, _, _⟩ :=
    runIters_ok_invariant hrun
  have c1 : (st.train_x_ei ++ st.heldout_x_ei).Perm (List.range N) :=
    hperm.trans hpart
  have nodup_k : (st.train_x_ei ++ st.heldout_x_ei).Nodup :=
    c1.symm.nodup (List.nodup_range N)
  have c5 : st.heldout_x_random.Sublist st0.heldout_x_ei := hrpool ▸ hsubr
  have c6 : st.heldout_x_random.Nodup := c5.nodup nodup0_pool
  have hNlen : st0.train_x_ei.length + st0.heldout_x_ei.length = N := by
    have := hpart.length_eq
    simpa using this
  refine ⟨c1, (List.nodup_append.mp nodup_k).2.2, ?_, ?_, c5, c6, ?_, ?_, ?_, ?_⟩
  · intro i
    rw [← c1.mem_iff, List.mem_append]
  · have := c1.length_eq
    simpa using this
  · rw [List.append_assoc]
    exact (List.Perm.append_left _
      (filter_not_mem_append_perm c5 nodup0_pool)).trans hpart
  · obtain ⟨hl1, _⟩ := hlenr hralign
    rw [hrpool] at hl1
    omega
  · intro j stj hj hjrun
    obtain ⟨h1, h2⟩ := runIters_pool_mono hj hrun hjrun
    exact ⟨fun x hnot hmem => hnot (List.Sublist.mem hmem h1),
           fun x hnot hmem => hnot (List.Sublist.mem hmem h2)⟩
  · intro j stj stj' hjrun hstep
    obtain ⟨_, _, hsubrj, hlenrj, _, _, _, _, _, _, _, _, _⟩ :=
      runIters_ok_invariant hjrun
    have nodupj_pool : stj.heldout_x_ei.Nodup := by
      obtain ⟨_, hsubj, _⟩ := runIters_ok_invariant hjrun
      exact hsubj.nodup nodup0_pool
    have nodupj_poolr : stj.heldout_x_random.Nodup :=
      (hrpool ▸ hsubrj).nodup nodup0_pool
    obtain ⟨halignj1, halignj⟩ := hlenrj hralign
    obtain ⟨bf, ei, xsel, vsel, vr, prev_e, prev_r, hbf, hei_y, hei_x,
            hxe, hye, htx, hty, hhx, hhy, hir, hyv, hlr, hbr, hhxr, hhyr,
            hle, hbe, hms⟩ := bo_iteration_ok hstep
    have hirx : ridx j < stj.heldout_x_random.length := halignj ▸ hir
    refine ⟨⟨xsel, htx, ?_⟩,
            ⟨ridx j, stj.heldout_x_random[ridx j], List.getElem?_eq_getElem hirx,
             hhxr, ?_⟩⟩
    · rw [hhx]
      exact not_mem_eraseIdx_of_nodup nodupj_pool hxe
    · rw [hhxr]
      exact not_mem_eraseIdx_of_nodup nodupj_poolr
        (List.getElem?_eq_getElem hirx)

/-- Claim C1 witness: the concrete one-iteration trial over index set
`{0, 1, 2, 3}`. -/
theorem gp_random_partition_invariant_witness :
    (stW0.train_x_ei ++ stW0.heldout_x_ei).Perm (List.range 4) ∧
    stW0.heldout_x_random = stW0.heldout_x_ei ∧
    stW0.heldout_x_random.length = stW0.heldout_y_random.length ∧
    runIters 7 fitW acqW (fun _ => 0) 1 stW0 = Except.ok stW1 ∧
    (stW1.train_x_ei ++ stW1.heldout_x_ei).Perm (List.range 4) ∧
    stW1.train_x_ei.Disjoint stW1.heldout_x_ei ∧
    stW1.train_x_ei.length + stW1.heldout_x_ei.length = 4 ∧
    ((stW0.train_x_ei ++
        stW0.heldout_x_ei.filter (fun i => decide (i ∉ stW1.heldout_x_random))) ++
      stW1.heldout_x_random).Perm (List.range 4) ∧
    (stW0.train_x_ei.length + 1) + stW1.heldout_x_random.length = 4 := by
  have h := gp_random_partition_invariant 4 1 7 fitW acqW (fun _ => 0)
    stW0 stW1 (by decide) rfl rfl rfl
  exact ⟨by decide, rfl, rfl, rfl, h.1, h.2.1, h.2.2.2.1,
         h.2.2.2.2.2.2.1, h.2.2.2.2.2.2.2.1⟩

/-- Trivial fit function over a `Unit` state dict, for harness witnesses. -/
def fitU : List (List ℚ) → List ℚ → Unit → Unit := fun _ _ _ => ()

/-- Constant-zero acquisition over feature rows, for harness witnesses. -/
def acqU : Unit → ℚ → List ℚ → ℚ := fun _ _ _ => 0

/-- A concrete split function: first row/label to train, rest heldout. -/
def splitW : ℕ → List (List ℚ) → List ℚ →
    List (List ℚ) × List (List ℚ) × List ℚ × List ℚ :=
  fun _ X y => (X.take 1, X.drop 1, y.take 1, y.drop 1)

/-- A concrete 21-point dataset (empty feature rows, zero labels). -/
def XW : List (List ℚ) := List.replicate 21 []

/-- Labels of the concrete dataset. -/
def yW : List ℚ := List.replicate 21 0

/-- The experiment state at load time for the concrete dataset. -/
def esW0 : ExperimentState Unit :=
  { X := XW, y := yW, best_observed_all_ei := [], best_random_all := [] }

/-- The experiment state after one completed trial on the concrete
dataset. -/
def esW1 : ExperimentState Unit :=
  { X := XW, y := yW
    best_observed_all_ei := [List.replicate 21 0]
    best_random_all := [List.replicate 21 0] }

/-- Claim C8: the dataset variables `X` and `y` are never modified: after
any number of completed trials (in particular after the whole experiment)
they are equal to their load-time values. -/
theorem dataset_read_only {S : Type} (d : S)
    (fitF : List (List ℚ) → List ℚ → S → S) (mkAcq : S → ℚ → List ℚ → ℚ)
    (ridx : ℕ → ℕ → ℕ)
    (split_fn : ℕ → List (List ℚ) → List ℚ →
      List (List ℚ) × List (List ℚ) × List ℚ × List ℚ)
    (t : ℕ) (es0 es : ExperimentState S)
    (hrun : runTrials d fitF mkAcq ridx split_fn t es0 = .ok es) :
    es.X = es0.X ∧ es.y = es0.y ∧
    ∀ (X : List (List ℚ)) (y : List ℚ) (es' : ExperimentState S),
      runExperiment d fitF mkAcq ridx split_fn X y = .ok es' →
      es'.X = X ∧ es'.y = y := by
  obtain ⟨hX, hy, _, _⟩ := runTrials_ok_invariant hrun
  refine ⟨hX, hy, ?_⟩
  intro X y es' hexp
  unfold runExperiment at hexp
  obtain ⟨hX', hy', _, _⟩ := runTrials_ok_invariant hexp
  exact ⟨hX', hy'⟩

set_option maxRecDepth 100000 in
/-- Claim C8 witness: one full concrete trial (21 points, `N_ITERS` = 20
iterations) leaves `X` and `y` untouched. -/
theorem dataset_read_only_witness :
    runTrials () fitU acqU (fun _ _ => 0) splitW 1 esW0 = Except.ok esW1 ∧
    (esW1.X = esW0.X ∧ esW1.y = esW0.y ∧
     ∀ (X : List (List ℚ)) (y : List ℚ) (es' : ExperimentState Unit),
       runExperiment () fitU acqU (fun _ _ => 0) splitW X y = .ok es' →
       es'.X = X ∧ es'.y = y) :=
  ⟨rfl, dataset_read_only () fitU acqU (fun _ _ => 0) splitW 1 esW0 esW1 rfl⟩

/-- Claim C7: the confidence-interval helper returns, at every iteration
index, the half-width `1.96 * std / sqrt T`, where the standard deviation
is taken across trials at that index and `T` is the number of per-trial
traces the harness collects (the harness collects exactly `N_TRIALS` of
them, which is the constant `ci` divides by). -/
theorem ci_half_width_formula (rows : List (List ℚ))
    (hT : rows.length = N_TRIALS) (j : ℕ) :
    ci rows j = 1.96 * npStd ((column rows j).map (fun q => (q : ℝ))) /
      Real.sqrt (rows.length : ℕ) ∧
    ∀ (S : Type) (d : S) (fitF : List (List ℚ) → List ℚ → S → S)
      (mkAcq : S → ℚ → List ℚ → ℚ) (ridx : ℕ → ℕ → ℕ)
      (split_fn : ℕ → List (List ℚ) → List ℚ →
        List (List ℚ) × List (List ℚ) × List ℚ × List ℚ)
      (X : List (List ℚ)) (y : List ℚ) (es : ExperimentState S),
      runExperiment d fitF mkAcq ridx split_fn X y = .ok es →
      es.best_observed_all_ei.length = N_TRIALS ∧
      es.best_random_all.length = N_TRIALS := by
  constructor
  · rw [hT]
    rfl
  · intro S d fitF mkAcq ridx split_fn X y es hexp
    unfold runExperiment at hexp
    obtain ⟨_, _, hle, hlr⟩ := runTrials_ok_invariant hexp
    simpa using ⟨hle, hlr⟩

/-- Claim C7 witness: a concrete 20-trace matrix. -/
theorem ci_half_width_formula_witness :
    (List.replicate 20 [(0 : ℚ)]).length = N_TRIALS ∧
    (ci (List.replicate 20 [(0 : ℚ)]) 0 =
      1.96 * npStd ((column (List.replicate 20 [(0 : ℚ)]) 0).map
        (fun q => (q : ℝ))) /
      Real.sqrt ((List.replicate 20 [(0 : ℚ)]).length : ℕ) ∧
     ∀ (S : Type) (d : S) (fitF : List (List ℚ) → List ℚ → S → S)
       (mkAcq : S → ℚ → List ℚ → ℚ) (ridx : ℕ → ℕ → ℕ)
       (split_fn : ℕ → List (List ℚ) → List ℚ →
         List (List ℚ) × List (List ℚ) × List ℚ × List ℚ)
       (X : List (List ℚ)) (y : List ℚ) (es : ExperimentState S),
       runExperiment d fitF mkAcq ridx split_fn X y = .ok es →
       es.best_observed_all_ei.length = N_TRIALS ∧
       es.best_random_all.length = N_TRIALS) :=
  ⟨by decide, ci_half_width_formula (List.replicate 20 [(0 : ℚ)]) (by decide) 0⟩

end GProTorchBO
